import Mathlib

set_option synthInstance.maxSize 1024

/-!
Verification of the C-header / binding-layer signature audit script
(`check_missing.py`).  The script is embedded shallowly: Python strings
become `List Char`, Python lists become Lean lists, the insertion-ordered
dictionary of C signatures becomes an association list, and runtime
exceptions (`IndexError`, `KeyError`, `AttributeError`) are modelled by
`Option`/`PyOut.exn`.  The one `while` loop of the script that can fail to
terminate is modelled with an explicit fuel parameter; `PyOut.hang` marks
fuel exhaustion, so `∀ fuel, … = .hang` expresses divergence.
-/

/-- Convert a Lean string literal to the `List Char` representation used
throughout the embedding (Python `str` is a sequence of characters). -/
def str (s : String) : List Char := s.data

/-- Python `str.strip()` default whitespace set. -/
def pyIsSpace (c : Char) : Bool :=
  c = ' ' || c = '\t' || c = '\n' || c = '\r' || c = '\x0b' || c = '\x0c'

/-- Python `s.strip()`: remove leading and trailing whitespace. -/
def pyStrip (s : List Char) : List Char :=
  ((s.dropWhile pyIsSpace).reverse.dropWhile pyIsSpace).reverse

/-- Python `sep.join(parts)` (for list-of-char strings). -/
def pyJoin (sep : List Char) (parts : List (List Char)) : List Char :=
  List.intercalate sep parts

/-- Index of the first occurrence of `sep` in `s`, if any. -/
def findSubIdx (sep : List Char) : List Char → Option Nat
  | [] => if sep = [] then some 0 else none
  | c :: cs =>
    if List.isPrefixOf sep (c :: cs) then some 0
    else (findSubIdx sep cs).map (· + 1)

/-- Fuelled worker for `pySplitS` (Python `s.split(sep)` for a multi-character
separator): split at each leftmost occurrence of `sep`. -/
def pySplitSGo (sep : List Char) : Nat → List Char → List (List Char)
  | 0, s => [s]
  | fuel + 1, s =>
    match findSubIdx sep s with
    | none => [s]
    | some i => s.take i :: pySplitSGo sep fuel (s.drop (i + sep.length))

/-- Python `s.split(sep)` for a nonempty separator string `sep`. -/
def pySplitS (sep s : List Char) : List (List Char) :=
  pySplitSGo sep (s.length + 1) s

/-- Python `s.replace(old, new)`: replace every occurrence, left to right. -/
def pyReplace (old new s : List Char) : List Char :=
  pyJoin new (pySplitS old s)

/-- Outcome of running a (possibly fuelled) piece of the Python script:
normal return, an uncaught exception, or fuel exhaustion (the script is
still looping). -/
inductive PyOut (α : Type) where
  | ok (a : α)
  | exn
  | hang
deriving DecidableEq, Repr

/-- Sequencing of script steps: exceptions and divergence propagate. -/
def pyBind {α β : Type} : PyOut α → (α → PyOut β) → PyOut β
  | .ok a, f => f a
  | .exn, _ => .exn
  | .hang, _ => .hang

/-- The deny-list `TO_IGNORE` of the script: deprecated exports that are
never recorded in the C-signature table. -/
def TO_IGNORE : List (List Char) :=
  [str ("initGEOS_r"), str ("finishGEOS_r"), str ("GEOSGeomFromWKT"),
   str ("GEOSGeomFromWKT_r"), str ("GEOSGeomToWKT"), str ("GEOSGeomToWKT_r"),
   str ("GEOSSingleSidedBuffer"), str ("GEOSSingleSidedBuffer_r"),
   str ("GEOSUnionCascaded"), str ("GEOSUnionCascaded_r")]

/-! ## C argument-list parsing (`get_c_args`) -/

/-- The `while ty_name.endswith('[]')` loop of `get_c_args`: strip trailing
`[]` pairs from the declarator, appending a `' *const'` marker to the type
for each.  Fuel `ty.length` is always sufficient (each pass removes two
characters). -/
def stripArrGo : Nat → List Char → List Char → (List Char × List Char)
  | 0, params, ty => (params, ty)
  | fuel + 1, params, ty =>
    if List.isSuffixOf (str ("[]")) ty then
      stripArrGo fuel (params ++ str (" *const")) (pyStrip (ty.take (ty.length - 2)))
    else (params, ty)

/-- One comma-separated fragment of a C parameter list, as processed by the
body of the loop in `get_c_args`.  Returns `none` on the script's
`params.pop()` call, which raises `AttributeError` at runtime because
`params` has already been joined into a string. -/
def get_c_args_part (args : List (List Char)) (p : List Char) :
    Option (List (List Char)) :=
  let part := pyStrip p
  if part = [] then some args
  else
    let params := List.splitOn ' ' part
    let ty := params.getLastD []
    let ps := pyJoin (str (" ")) params.dropLast
    let r := stripArrGo ty.length ps ty
    if r.2 = [] then none
    else
      let stars := r.2.takeWhile (fun c => c = '*')
      let ps2 := r.1 ++ List.replicate stars.length '*'
      some (args ++ [pyStrip (pyReplace (str (" * const")) (str (" *const")) ps2)])

/-- `get_c_args(text, args)` of the script: parse a C parameter-list
fragment, appending one type string per parameter to `args`. -/
def get_c_args (text : List Char) (args : List (List Char)) :
    Option (List (List Char)) :=
  (List.splitOn ',' text).foldlM get_c_args_part args

/-! ## Rust argument-list parsing (`get_rust_args`, `get_rust_ret_type`) -/

/-- One comma-separated fragment of a Rust parameter list (`get_rust_args`
loop body): drop everything before the first `:`, normalize whitespace. -/
def get_rust_args_part (args : List (List Char)) (p : List Char) :
    List (List Char) :=
  let part := pyStrip p
  if part = [] then args
  else
    let ps := (List.splitOn ':' part).tail
    args ++ [pyJoin (str (" ")) ((ps.map pyStrip).filter (fun t => t ≠ []))]

/-- `get_rust_args(text, args)` of the script. -/
def get_rust_args (text : List Char) (args : List (List Char)) :
    List (List Char) :=
  (List.splitOn ',' text).foldl get_rust_args_part args

/-- `get_rust_ret_type(text)`: the segment between `') -> '` and `';'`, or
the empty string when no arrow is present. -/
def get_rust_ret_type (text : List Char) : List Char :=
  match (pySplitS (str (") -> ")) text).get? 1 with
  | none => []
  | some t => (List.splitOn ';' t).headD []

/-! ## The type translator (`convert_c_to_rust`) -/

/-- The `inline_conv` substitution table; unknown tokens pass through. -/
def inline_conv (t : List Char) : List Char :=
  if t = str ("int") then str ("c_int")
  else if t = str ("char") then str ("c_char")
  else if t = str ("void") then str ("c_void")
  else if t = str ("double") then str ("c_double")
  else if t = str ("float") then str ("c_float")
  else t

/-- The `unsigned_inline_conv` table; `none` models the script's `KeyError`
on an unknown key. -/
def unsigned_inline_conv (t : List Char) : Option (List Char) :=
  if t = str ("int") then some (str ("c_uint"))
  else if t = str ("char") then some (str ("c_uchar"))
  else if t = str ("c_int") then some (str ("c_uint"))
  else if t = str ("c_char") then some (str ("c_uchar"))
  else none

/-- The `while complete_type[-1].endswith('*')` loop of `convert_c_to_rust`:
peel one trailing `*` per pass, prepending `*const`/`*mut`.  `none` models
the `IndexError` on an empty token list.  Fuel (length of the last token
plus one) is always sufficient because the last token shrinks each pass. -/
def starPeelGo (c : Bool) : Nat → List (List Char) → Option (List (List Char))
  | fuel, l =>
    match l.getLast? with
    | none => none
    | some last =>
      if last.getLast? = some '*' then
        match fuel with
        | 0 => none
        | f + 1 =>
          starPeelGo c f
            ((if c then str ("*const") else str ("*mut")) ::
              (l.dropLast ++ [pyStrip last.dropLast]))
      else some l

/-- The body of the `while complete_type[-1].endswith('*const')` loop:
truncate the last token by six characters (and strip), pop it when it
becomes empty, and prepend a `*const` token. -/
def constPeelStep (l : List (List Char)) : List (List Char) :=
  match l.getLast? with
  | none => l
  | some last =>
    let last' := pyStrip (last.take (last.length - 6))
    str ("*const") :: (if last' = [] then l.dropLast else l.dropLast ++ [last'])

/-- The `*const`-peeling loop itself.  This loop of the script can run
forever; the fuel parameter makes that observable as `.hang`. -/
def constPeelLoop : Nat → List (List Char) → PyOut (List (List Char))
  | fuel, l =>
    match l.getLast? with
    | none => .exn
    | some last =>
      if List.isSuffixOf (str ("*const")) last then
        match fuel with
        | 0 => .hang
        | f + 1 => constPeelLoop f (constPeelStep l)
      else .ok l

/-- The final substitution pass of `convert_c_to_rust`: `unsigned` consumes
the following token through `unsigned_inline_conv` (IndexError/KeyError as
`none`), every other token goes through `inline_conv`. -/
def substLoop : List (List Char) → Option (List (List Char))
  | [] => some []
  | t :: rest =>
    if t = str ("unsigned") then
      match rest with
      | [] => none
      | u :: rest' =>
        match unsigned_inline_conv u with
        | none => none
        | some v => (substLoop rest').map (fun l => v :: l)
    else (substLoop rest).map (fun l => inline_conv t :: l)

/-- Stage one of `convert_c_to_rust`: tokenize, record a leading `const`,
drop `const` tokens, and run the single-`*` peeling loop. -/
def convertPre (c_type : List Char) : Option (List (List Char)) :=
  let parts := List.splitOn ' ' (pyStrip c_type)
  let ct := parts.filter (fun t => t ≠ str ("const"))
  starPeelGo (parts.headD [] = str ("const")) ((ct.getLastD []).length + 1) ct

/-- Stage three of `convert_c_to_rust`: primitive substitution and the final
whitespace-normalizing join. -/
def convertPost (l : List (List Char)) : Option (List Char) :=
  (substLoop l).map
    (fun ct => pyJoin (str (" ")) ((ct.map pyStrip).filter (fun t => t ≠ [])))

/-- `convert_c_to_rust(c_type)` of the script, with fuel for the
`*const`-peeling loop. -/
def convert_c_to_rust (fuel : Nat) (c_type : List Char) : PyOut (List Char) :=
  match convertPre c_type with
  | none => .exn
  | some m =>
    match constPeelLoop fuel m with
    | .hang => .hang
    | .exn => .exn
    | .ok l =>
      match convertPost l with
      | none => .exn
      | some r => .ok r

/-- Translate each C argument in order (the list comprehension of
`compare_rust_and_c_funcs`). -/
def convertArgs (fuel : Nat) : List (List Char) → PyOut (List (List Char))
  | [] => .ok []
  | x :: xs =>
    pyBind (convert_c_to_rust fuel x) fun r =>
      pyBind (convertArgs fuel xs) fun rs => .ok (r :: rs)

/-- `compare_rust_and_c_funcs` of the script (printing dropped): translate
the C parameters and return type, convert a translated `c_void` return to
the empty string, and require exact string equality of the comma-joined
parameter lists and of the return types. -/
def compare_rust_and_c_funcs (fuel : Nat) (c_args : List (List Char))
    (c_ret : List Char) (rust_args : List (List Char)) (ret_type : List Char) :
    PyOut Bool :=
  pyBind (convertArgs fuel c_args) fun ca =>
    pyBind (convert_c_to_rust fuel c_ret) fun cr0 =>
      let cr := if cr0 = str ("c_void") then [] else cr0
      .ok (decide (cr = ret_type) &&
        decide (pyJoin (str (",")) ca = pyJoin (str (",")) rust_args))

/-! ## The C-signature table and its operations -/

/-- The insertion-ordered `functions` dict of `get_c_functions`: keys are
function names, values are (parameter type strings, return type string). -/
abbrev Dict := List (List Char × (List (List Char) × List Char))

/-- Python `key in d` / `d[key]` lookup. -/
def dlookup : Dict → List Char → Option (List (List Char) × List Char)
  | [], _ => none
  | (k, v) :: rest, key => if k = key then some v else dlookup rest key

/-- Python `d[key] = v`: overwrite in place, or append a new entry. -/
def dinsert (d : Dict) (key : List Char) (v : List (List Char) × List Char) :
    Dict :=
  if (dlookup d key).isSome then
    d.map (fun p => if p.1 = key then (key, v) else p)
  else d ++ [(key, v)]

/-- Python `del d[key]`. -/
def dremove (d : Dict) (key : List Char) : Dict :=
  d.filter (fun p => p.1 ≠ key)

/-- Python `set.add` (insertion order retained for the model). -/
def setAdd (s : List (List Char)) (x : List Char) : List (List Char) :=
  if x ∈ s then s else s ++ [x]

/-! ## Header scanning (`get_c_functions`) -/

/-- The multi-line continuation loop of `get_c_functions`: keep feeding
lines to `get_c_args` until one ends in `');'`.  Returns the number of
extra lines to skip past and the accumulated argument list. -/
def gcf_inner : List (List Char) → List (List Char) →
    Option (Nat × List (List Char))
  | [], args => some (0, args)
  | l :: rest, args =>
    match get_c_args ((pySplitS (str (");")) (pyStrip l)).headD []) args with
    | none => none
    | some args' =>
      if List.isSuffixOf (str (");")) l then some (0, args')
      else
        match gcf_inner rest args' with
        | none => none
        | some (k, a) => some (k + 1, a)

/-- The record step at the end of a `get_c_functions` iteration: names that
are empty or on the deny-list are dropped. -/
def gcfRecord (fns : Dict) (fname : List Char)
    (args : List (List Char)) (ret : List Char) : Dict :=
  if fname ≠ [] ∧ fname ∉ TO_IGNORE then dinsert fns fname (args, ret) else fns

/-- The main loop of `get_c_functions` over the header lines.  The fuel is
one unit per loop iteration; `get_c_functions` supplies enough.  `none`
models the script's `IndexError`s (`split('extern ')[1]`, `split('(')[1]`)
and the `get_c_args` failure. -/
def gcf_go : Nat → List (List Char) → Dict → Option Dict
  | _, [], fns => some fns
  | 0, _ :: _, _ => none
  | f + 1, line :: rest, fns =>
      match (pySplitS (str (" GEOS_DLL ")) line).get? 1 with
      | none => gcf_go f rest fns
      | some p1 =>
        match (pySplitS (str ("extern "))
            ((pySplitS (str (" GEOS_DLL ")) line).headD [])).get? 1 with
        | none => none
        | some rt0 =>
          let na := List.splitOn '(' p1
          match na.get? 1 with
          | none => none
          | some argText =>
            let rawName := na.headD []
            let stars := rawName.takeWhile (fun c => c = '*')
            let fname := pyStrip (rawName.dropWhile (fun c => c = '*'))
            let ret := pyStrip rt0 ++ List.replicate stars.length '*'
            match get_c_args argText [] with
            | none => none
            | some args0 =>
              if List.isSuffixOf (str (");")) argText then
                gcf_go f rest (gcfRecord fns fname args0 ret)
              else
                match gcf_inner rest args0 with
                | none => none
                | some (k, args1) =>
                  gcf_go f (rest.drop (k + 1)) (gcfRecord fns fname args1 ret)

/-- `get_c_functions` of the script, on the header's line list. -/
def get_c_functions (lines : List (List Char)) : Option Dict :=
  gcf_go lines.length lines []

/-! ## Binding scanning (`get_rust_functions`) -/

/-- The name scanned at a `' fn '` marker: the text between the marker and
the first `'('`, stripped.  `none` when the line has no marker. -/
def fnNameOf (line : List Char) : Option (List Char) :=
  ((pySplitS (str (" fn ")) line).get? 1).map
    (fun a => pyStrip ((List.splitOn '(' a).headD []))

/-- Whether `') -> '` occurs in the line. -/
def hasArrow (line : List Char) : Bool :=
  ((pySplitS (str (") -> ")) line).get? 1).isSome

/-- The multi-line continuation loop of `get_rust_functions`: accumulate
arguments until a line ends the declaration or carries the return arrow.
Returns the skip count, the arguments, and the terminating line (`none`
when the loop runs off the end of the file, in which case the script's
following `content[pos]` raises `IndexError`). -/
def grf_inner : List (List Char) → List (List Char) →
    Nat × List (List Char) × Option (List Char)
  | [], args => (0, args, none)
  | l :: rest, args =>
    let args' := get_rust_args ((List.splitOn ')' (pyStrip l)).headD []) args
    if List.isSuffixOf (str (");")) l || hasArrow l then (0, args', some l)
    else
      let r := grf_inner rest args'
      (r.1 + 1, r.2.1, r.2.2)

/-- The main loop of `get_rust_functions`: `cfuel` is the fuel for the
translator's `*const` loop, the second argument the per-iteration fuel of
this scan (`get_rust_functions` supplies enough). -/
def grf_go (cfuel : Nat) : Nat → List (List Char) → Dict →
    List (List Char) → Bool → PyOut (Dict × List (List Char) × Bool)
  | _, [], cf, fns, err => .ok (cf, fns, err)
  | 0, _ :: _, _, _, _ => .hang
  | f + 1, line :: rest, cf, fns, err =>
      match (pySplitS (str (" fn ")) line).get? 1 with
      | none => grf_go cfuel f rest cf fns err
      | some after =>
        let na := List.splitOn '(' after
        let name := pyStrip (na.headD [])
        match dlookup cf name with
        | some csig =>
          match na.get? 1 with
          | none => .exn
          | some p1 =>
            let args0 := get_rust_args (pyStrip ((List.splitOn ')' p1).headD [])) []
            if !(List.isSuffixOf (str (");")) line) && !(hasArrow line) then
              match grf_inner rest args0 with
              | (_, _, none) => .exn
              | (k, args1, some bl) =>
                match compare_rust_and_c_funcs cfuel csig.1 csig.2 args1
                    (get_rust_ret_type bl) with
                | .exn => .exn
                | .hang => .hang
                | .ok okc =>
                  grf_go cfuel f (rest.drop (k + 1)) (dremove cf name) fns
                    (err || !okc)
            else
              match compare_rust_and_c_funcs cfuel csig.1 csig.2 args0
                  (get_rust_ret_type line) with
              | .exn => .exn
              | .hang => .hang
              | .ok okc => grf_go cfuel f rest (dremove cf name) fns (err || !okc)
        | none =>
          if name = [] then grf_go cfuel f rest cf fns err
          else grf_go cfuel f rest cf (setAdd fns name) err

/-- `get_rust_functions` of the script: scan the binding source against the
C-signature table, returning the drained table, the set of unknown names,
and the `errors != 0` flag. -/
def get_rust_functions (cfuel : Nat) (content : List (List Char))
    (c_func : Dict) : PyOut (Dict × List (List Char) × Bool) :=
  grf_go cfuel content.length content c_func [] false

/-! ## The module-level reporter -/

/-- The final `sys.exit` decision of the script: status 1 when a mismatch
was recorded or the residual table or the extra-name set is nonempty,
status 0 otherwise. -/
def exitCode (err : Bool) (missing : Dict) (extra : List (List Char)) : Nat :=
  if err || missing.length > 0 || extra.length > 0 then 1 else 0

/-- One whole run of the script on the two line lists: the residual
C-signature table (missing bindings), the extra names, the mismatch flag,
and the exit status. -/
def runOut (cfuel : Nat) (header rust : List (List Char)) :
    PyOut (Dict × List (List Char) × Bool × Nat) :=
  match get_c_functions header with
  | none => .exn
  | some cf =>
    pyBind (get_rust_functions cfuel rust cf) fun r =>
      .ok (r.1, r.2.1, r.2.2, exitCode r.2.2 r.1 r.2.1)

/-- Missing-bindings component of a run. -/
def resMissing : PyOut (Dict × List (List Char) × Bool × Nat) → Option Dict
  | .ok r => some r.1
  | _ => none

/-- Extra-names component of a run. -/
def resExtra : PyOut (Dict × List (List Char) × Bool × Nat) →
    Option (List (List Char))
  | .ok r => some r.2.1
  | _ => none

/-- Mismatch-flag component of a run. -/
def resErr : PyOut (Dict × List (List Char) × Bool × Nat) → Option Bool
  | .ok r => some r.2.2.1
  | _ => none

/-- Exit-status component of a run. -/
def resExit : PyOut (Dict × List (List Char) × Bool × Nat) → Option Nat
  | .ok r => some r.2.2.2
  | _ => none

-- smoke checks of the embedding against hand-traced runs of the script
example : convert_c_to_rust 0 (str ("double")) = .ok (str ("c_double")) := by decide
example : convert_c_to_rust 0 (str ("unsigned int")) = .ok (str ("c_uint")) := by decide
example : convert_c_to_rust 0 (str ("unsigned char")) = .ok (str ("c_uchar")) := by decide
example : convert_c_to_rust 0 (str ("const double *")) = .ok (str ("*const c_double")) := by decide
example : convert_c_to_rust 0 (str ("double *")) = .ok (str ("*mut c_double")) := by decide
example : convert_c_to_rust 1 (str ("double *const")) = .ok (str ("*const c_double")) := by decide
example : convert_c_to_rust 0 (str ("int **")) = .ok (str ("*mut *mut c_int")) := by decide
example : convert_c_to_rust 3 (str ("*const")) = .hang := by decide
example : get_c_args (str ("const double * arg);")) [] = some [str ("const double *")] := by decide
example : get_c_args (str ("double[]")) [] = some [str ("*const")] := by decide
example : get_c_args (str ("double x[]")) [] = some [str ("double *const")] := by decide
example : get_c_args (str ("double []")) [] = none := by decide
example : get_rust_args (str ("a: f64, b: *const f64")) [] = [str ("f64"), str ("*const f64")] := by decide
example : get_rust_ret_type (str (") -> c_int;")) = str ("c_int") := by decide

-- end-to-end smoke checks
example :
    runOut 0 [str ("extern double GEOS_DLL GEOSFunc(const double * arg);")]
      [str ("")] =
    .ok ([(str ("GEOSFunc"), ([str ("const double *")], str ("double")))],
      [], false, 1) := by decide

example :
    runOut 1 [str ("extern double GEOS_DLL GEOSFunc(const double * arg);")]
      [str ("    pub fn GEOSFunc(arg: *const c_double) -> c_double;")] =
    .ok ([], [], false, 0) := by decide

example :
    runOut 1 [str ("extern double GEOS_DLL GEOSFunc(const double * arg);")]
      [str ("    pub fn GEOSFunc(arg: *mut c_double) -> c_double;")] =
    .ok ([], [], true, 1) := by decide

example :
    runOut 1 [str ("extern double GEOS_DLL GEOSFunc(const double * arg);")]
      [str ("    pub fn GEOSFunc(arg: *const c_double) -> c_double;"),
       str ("    pub fn Extra(x: c_int) -> c_int;")] =
    .ok ([], [str ("Extra")], false, 1) := by decide

/-! ## Helper lemmas -/

/-- If the last token does not end in `*const`, the peeling loop exits at
once, independently of fuel. -/
theorem constPeelLoop_exit (fuel : Nat) (l : List (List Char))
    (last : List Char) (h1 : l.getLast? = some last)
    (h2 : List.isSuffixOf (str ("*const")) last = false) :
    constPeelLoop fuel l = .ok l := by
  cases fuel <;> simp [constPeelLoop, h1, h2]

/-- Assemble a successful run of the translator from its three stages. -/
theorem convert_ok {fuel : Nat} {s : List Char} {m l : List (List Char)}
    {r : List Char} (h1 : convertPre s = some m)
    (h2 : constPeelLoop fuel m = .ok l) (h3 : convertPost l = some r) :
    convert_c_to_rust fuel s = .ok r := by
  simp [convert_c_to_rust, h1, h2, h3]

/-- Translating `void` yields the literal token `c_void` (not the empty
string), at any fuel. -/
theorem convert_void (fuel : Nat) :
    convert_c_to_rust fuel (str ("void")) = .ok (str ("c_void")) :=
  convert_ok (m := [str ("void")]) (l := [str ("void")]) (by decide)
    (constPeelLoop_exit fuel [str ("void")] (str ("void")) (by decide)
      (by decide)) (by decide)

/-- On the token state `['*const']` the peeling loop never exits: the body
empties the last token, pops it, and re-inserts `'*const'`, restoring the
same state with the loop condition still true. -/
theorem constPeelLoop_starconst_hang (fuel : Nat) :
    constPeelLoop fuel [str ("*const")] = .hang := by
  induction fuel with
  | zero => decide
  | succ f ih => exact ih

/-! ## Claim theorems: the type translator -/

/-- Claim C3: a C `void` return compares equal to an absent (empty) target
return annotation, for any pair of signatures whose translated parameter
lists agree; and the `void`-to-empty conversion happens in the comparator,
not the translator, which maps `void` to the literal token `c_void`. -/
theorem c3_void_return_compares_equal (cfuel : Nat)
    (c_args rust_args ca : List (List Char))
    (h1 : convertArgs cfuel c_args = .ok ca)
    (h2 : pyJoin (str (",")) ca = pyJoin (str (",")) rust_args) :
    compare_rust_and_c_funcs cfuel c_args (str ("void")) rust_args [] =
      .ok true ∧
    convert_c_to_rust cfuel (str ("void")) = .ok (str ("c_void")) := by
  refine ⟨?_, convert_void cfuel⟩
  simp [compare_rust_and_c_funcs, h1, pyBind, convert_void cfuel, h2]

/-- Witness for C3 at a concrete signature pair. -/
theorem c3_void_return_compares_equal_witness :
    compare_rust_and_c_funcs 0 [str ("int")] (str ("void")) [str ("c_int")] [] =
      .ok true ∧
    convert_c_to_rust 0 (str ("void")) = .ok (str ("c_void")) :=
  c3_void_return_compares_equal 0 [str ("int")] [str ("c_int")] [str ("c_int")]
    (by decide) (by decide)

/-- Claim C5: `const double *` translates to the read-only pointer form and
`double *` to the mutable pointer form; the outputs share the canonical
floating base token `c_double` and differ only in the leading
`*const`/`*mut` marker. -/
theorem c5_const_mut_pointer_forms (fuel : Nat) :
    convert_c_to_rust fuel (str ("const double *")) =
      .ok (pyJoin (str (" ")) [str ("*const"), str ("c_double")]) ∧
    convert_c_to_rust fuel (str ("double *")) =
      .ok (pyJoin (str (" ")) [str ("*mut"), str ("c_double")]) :=
  ⟨convert_ok (by decide)
      (constPeelLoop_exit fuel [str ("*const"), str ("double"), []] []
        (by decide) (by decide)) (by decide),
   convert_ok (by decide)
      (constPeelLoop_exit fuel [str ("*mut"), str ("double"), []] []
        (by decide) (by decide)) (by decide)⟩

/-- Claim C9 (evaluation): on the type string `*const` — which the
extractor produces for an anonymous array parameter `double[]` — the
translator's `*const`-peeling loop never exits: no amount of fuel makes
`convert_c_to_rust` return. -/
theorem c9_translator_diverges_on_starconst :
    ¬ ∃ fuel, convert_c_to_rust fuel (str ("*const")) ≠ .hang := by
  rintro ⟨fuel, h⟩
  exact h (by
    simp [convert_c_to_rust,
      show convertPre (str ("*const")) = some [str ("*const")] from by decide,
      constPeelLoop_starconst_hang fuel])

/-- Claim C6 (evaluation): on the anonymous/typeless array parameter
`double []` the script crashes (it calls `.pop()` on a string); the
re-popping described by the spec never happens. -/
theorem c6_anonymous_array_crashes :
    get_c_args (str ("double []")) [] = none := by decide

/-- Claim C7 (counterexample): the C type string `const` contains no
pointer declarator and no `unsigned` modifier, yet translating it does not
even produce an output — the script raises `IndexError` on the emptied
token list — so translation is not idempotent on every such string. -/
theorem c7_counterexample :
    (∀ t ∈ List.splitOn ' ' (pyStrip (str ("const"))),
      '*' ∉ t ∧ t ≠ str ("unsigned")) ∧
    convert_c_to_rust 0 (str ("const")) = .exn :=
  ⟨by decide, by decide⟩

/-- Claim C4 (counterexample): for the anonymous parameter `double[]` the
extractor produces the type string `*const` (losing the base type), whose
translation diverges; the translator alone passes `double[]` through
unchanged; either way the result differs from translating `double *const`,
which yields `*const c_double`. -/
theorem c4_counterexample :
    get_c_args (str ("double[]")) [] = some [str ("*const")] ∧
    convert_c_to_rust 3 (str ("double[]")) = .ok (str ("double[]")) ∧
    convert_c_to_rust 3 (str ("*const")) = .hang ∧
    convert_c_to_rust 3 (str ("double *const")) = .ok (str ("*const c_double")) := by
  refine ⟨by decide, by decide, by decide, by decide⟩


/-! ## Dictionary and set lemmas -/

/-- Unfolding lemma for `dlookup` on a cons cell. -/
theorem dlookup_cons (p : List Char × (List (List Char) × List Char))
    (rest : Dict) (key : List Char) :
    dlookup (p :: rest) key =
      if p.1 = key then some p.2 else dlookup rest key := by
  rcases p with ⟨k, v⟩
  rfl

/-- Overwriting key `k` does not change lookup at a different key. -/
theorem dlookup_map_overwrite (d : Dict) (k : List Char)
    (v : List (List Char) × List Char) (key : List Char) (h : key ≠ k) :
    dlookup (d.map (fun p => if p.1 = k then (k, v) else p)) key =
      dlookup d key := by
  induction d with
  | nil => rfl
  | cons p rest ih =>
    simp only [List.map_cons]
    by_cases hp : p.1 = k
    · rw [if_pos hp, dlookup_cons, dlookup_cons, ih]
      rw [if_neg (show ¬ (k, v).1 = key from fun hk => h hk.symm)]
      rw [if_neg (show ¬ p.1 = key from fun hk => h (hp.symm.trans hk).symm)]
    · rw [if_neg hp, dlookup_cons, dlookup_cons, ih]

/-- Appending a new entry for key `k` does not change lookup at a
different key. -/
theorem dlookup_append_single (d : Dict) (k : List Char)
    (v : List (List Char) × List Char) (key : List Char) (h : key ≠ k) :
    dlookup (d ++ [(k, v)]) key = dlookup d key := by
  induction d with
  | nil =>
    show dlookup [(k, v)] key = none
    rw [dlookup_cons, if_neg (show ¬ (k, v).1 = key from fun hk => h hk.symm)]
    rfl
  | cons p rest ih =>
    rw [List.cons_append, dlookup_cons, dlookup_cons, ih]

/-- `dinsert` at key `k` does not change lookup at a different key. -/
theorem dlookup_dinsert_ne (d : Dict) (k : List Char)
    (v : List (List Char) × List Char) (key : List Char) (h : key ≠ k) :
    dlookup (dinsert d k v) key = dlookup d key := by
  unfold dinsert
  split
  · exact dlookup_map_overwrite d k v key h
  · exact dlookup_append_single d k v key h

/-- Deleting a key makes its lookup `none`. -/
theorem dlookup_dremove_self (d : Dict) (k : List Char) :
    dlookup (dremove d k) k = none := by
  induction d with
  | nil => rfl
  | cons p rest ih =>
    unfold dremove at ih ⊢
    rw [List.filter_cons]
    by_cases hp : p.1 = k
    · rw [if_neg (by simp [hp])]
      exact ih
    · rw [if_pos (by simp [hp]), dlookup_cons, if_neg hp]
      exact ih

/-- Deletion preserves absent keys. -/
theorem dlookup_dremove_none (d : Dict) (k key : List Char)
    (h : dlookup d key = none) : dlookup (dremove d k) key = none := by
  induction d with
  | nil => rfl
  | cons p rest ih =>
    rw [dlookup_cons] at h
    by_cases hp : p.1 = key
    · rw [if_pos hp] at h; cases h
    · rw [if_neg hp] at h
      unfold dremove at ih ⊢
      rw [List.filter_cons]
      by_cases hk : p.1 = k
      · rw [if_neg (by simp [hk])]
        exact ih h
      · rw [if_pos (by simp [hk]), dlookup_cons, if_neg hp]
        exact ih h

/-- The added element is in the set. -/
theorem mem_setAdd_self (s : List (List Char)) (x : List Char) :
    x ∈ setAdd s x := by
  unfold setAdd
  split
  · assumption
  · simp

/-- Old elements stay in the set. -/
theorem mem_setAdd_of_mem (s : List (List Char)) (x y : List Char)
    (h : y ∈ s) : y ∈ setAdd s x := by
  unfold setAdd
  split
  · exact h
  · exact List.mem_append_left _ h

/-! ## Scan-loop invariants -/

/-- The extra-name set only grows during the binding scan. -/
theorem grf_go_fns_mono (cfuel fuel : Nat) :
    ∀ (rem : List (List Char)) (cf : Dict) (fns : List (List Char))
      (err : Bool) (res : Dict × List (List Char) × Bool),
      grf_go cfuel fuel rem cf fns err = .ok res →
      ∀ nm ∈ fns, nm ∈ res.2.1 := by
  induction fuel with
  | zero =>
    intro rem cf fns err res h nm hnm
    cases rem with
    | nil => cases h; exact hnm
    | cons l rest => cases h
  | succ f ih =>
    intro rem cf fns err res h nm hnm
    cases rem with
    | nil => cases h; exact hnm
    | cons line rest =>
      simp only [grf_go] at h
      split at h
      · exact ih _ _ _ _ _ h nm hnm
      · split at h
        · split at h
          · simp at h
          · split at h
            · split at h
              · simp at h
              · split at h <;> first | exact ih _ _ _ _ _ h nm hnm | simp at h
            · split at h <;> first | exact ih _ _ _ _ _ h nm hnm | simp at h
        · split at h
          · exact ih _ _ _ _ _ h nm hnm
          · exact ih _ _ _ _ _ h nm (mem_setAdd_of_mem _ _ _ hnm)

/-- The binding scan never adds keys to the C-signature table: a name
absent from the table stays absent in the residual table. -/
theorem grf_go_cf_none (cfuel fuel : Nat) :
    ∀ (rem : List (List Char)) (cf : Dict) (fns : List (List Char))
      (err : Bool) (res : Dict × List (List Char) × Bool),
      grf_go cfuel fuel rem cf fns err = .ok res →
      ∀ nm, dlookup cf nm = none → dlookup res.1 nm = none := by
  induction fuel with
  | zero =>
    intro rem cf fns err res h nm h0
    cases rem with
    | nil => cases h; exact h0
    | cons l rest => cases h
  | succ f ih =>
    intro rem cf fns err res h nm h0
    cases rem with
    | nil => cases h; exact h0
    | cons line rest =>
      simp only [grf_go] at h
      split at h
      · exact ih _ _ _ _ _ h nm h0
      · split at h
        · split at h
          · simp at h
          · split at h
            · split at h
              · simp at h
              · split at h <;>
                  first
                  | exact ih _ _ _ _ _ h nm (dlookup_dremove_none _ _ _ h0)
                  | simp at h
            · split at h <;>
                first
                | exact ih _ _ _ _ _ h nm (dlookup_dremove_none _ _ _ h0)
                | simp at h
        · split at h
          · exact ih _ _ _ _ _ h nm h0
          · exact ih _ _ _ _ _ h nm h0

/-- When no scanned `fn` name hits the C-signature table, the binding scan
returns the table and mismatch flag unchanged (with enough per-line fuel),
only collecting extra names. -/
theorem grf_go_skip (cfuel fuel : Nat) :
    ∀ (rem : List (List Char)) (cf : Dict) (fns : List (List Char))
      (err : Bool),
      (∀ line ∈ rem, ∀ nm, fnNameOf line = some nm → dlookup cf nm = none) →
      rem.length ≤ fuel →
      ∃ fns2, grf_go cfuel fuel rem cf fns err = .ok (cf, fns2, err) := by
  induction fuel with
  | zero =>
    intro rem cf fns err hrem hlen
    cases rem with
    | nil => exact ⟨fns, rfl⟩
    | cons l rest => simp at hlen
  | succ f ih =>
    intro rem cf fns err hrem hlen
    cases rem with
    | nil => exact ⟨fns, rfl⟩
    | cons line rest =>
      have hlen' : rest.length ≤ f := by
        simpa [Nat.succ_le_succ_iff] using hlen
      have hrest : ∀ l ∈ rest, ∀ nm, fnNameOf l = some nm →
          dlookup cf nm = none :=
        fun l hl => hrem l (List.mem_cons_of_mem _ hl)
      simp only [grf_go]
      cases hsp : (pySplitS (str (" fn ")) line).get? 1 with
      | none => simpa [hsp] using ih rest cf fns err hrest hlen'
      | some after =>
        have hname : dlookup cf (pyStrip ((List.splitOn '(' after).headD []))
            = none :=
          hrem line (List.mem_cons_self _ _) _
            (by unfold fnNameOf; rw [hsp]; rfl)
        simp only [hsp, hname]
        by_cases hempty : pyStrip ((List.splitOn '(' after).headD []) = []
        · rw [if_pos hempty]
          exact ih rest cf fns err hrest hlen'
        · rw [if_neg hempty]
          exact ih rest cf
            (setAdd fns (pyStrip ((List.splitOn '(' after).headD []))) err
            hrest hlen'

/-- Recording a scanned C declaration never stores a deny-listed name. -/
theorem gcfRecord_none (fns : Dict) (fname : List Char)
    (args : List (List Char)) (ret : List Char) (nm : List Char)
    (hnm : nm ∈ TO_IGNORE) (h0 : dlookup fns nm = none) :
    dlookup (gcfRecord fns fname args ret) nm = none := by
  unfold gcfRecord
  split
  · next hcond =>
    exact (dlookup_dinsert_ne _ _ _ _
      (fun he => hcond.2 (by rw [← he]; exact hnm))).trans h0
  · exact h0

/-- Throughout the header scan, deny-listed names never enter the
C-signature table. -/
theorem gcf_go_ignored (fuel : Nat) :
    ∀ (rem : List (List Char)) (fns d : Dict) (nm : List Char),
      nm ∈ TO_IGNORE → dlookup fns nm = none →
      gcf_go fuel rem fns = some d → dlookup d nm = none := by
  induction fuel with
  | zero =>
    intro rem fns d nm hnm h0 h
    cases rem with
    | nil => cases h; exact h0
    | cons l rest => cases h
  | succ f ih =>
    intro rem fns d nm hnm h0 h
    cases rem with
    | nil => cases h; exact h0
    | cons line rest =>
      simp only [gcf_go] at h
      split at h
      · exact ih _ _ _ _ hnm h0 h
      · split at h
        · simp at h
        · split at h
          · simp at h
          · split at h
            · simp at h
            · split at h
              · exact ih _ _ _ _ hnm
                  (gcfRecord_none _ _ _ _ _ hnm h0) h
              · split at h
                · simp at h
                · exact ih _ _ _ _ hnm
                    (gcfRecord_none _ _ _ _ _ hnm h0) h

/-- Exit-status characterization used by the reporter. -/
theorem exitCode_spec (e : Bool) (m : Dict) (x : List (List Char)) :
    (exitCode e m x = 0 ↔ e = false ∧ m = [] ∧ x = []) ∧
    (exitCode e m x = 0 ∨ exitCode e m x = 1) := by
  cases e <;> cases m <;> cases x <;> simp [exitCode]

/-! ## Claim theorems: end-to-end runs -/

/-- Claim C2: the process exit status is 0 exactly when no comparator
mismatch was recorded, the residual C-signature table is empty, and the
extra-name set is empty; in every other case it is 1. -/
theorem c2_exit_status_iff (cfuel : Nat) (header rust : List (List Char))
    (cf : Dict) (ex : List (List Char)) (err : Bool) (code : Nat)
    (h : runOut cfuel header rust = .ok (cf, ex, err, code)) :
    (code = 0 ↔ err = false ∧ cf = [] ∧ ex = []) ∧ (code = 0 ∨ code = 1) := by
  unfold runOut at h
  cases hg : get_c_functions header with
  | none => simp only [hg] at h; cases h
  | some cf0 =>
    simp only [hg] at h
    cases hr : get_rust_functions cfuel rust cf0 with
    | exn => simp only [hr, pyBind] at h; cases h
    | hang => simp only [hr, pyBind] at h; cases h
    | ok r =>
      simp only [hr, pyBind, PyOut.ok.injEq, Prod.mk.injEq] at h
      obtain ⟨h1, h2, h3, h4⟩ := h
      subst h1 h2 h3 h4
      exact exitCode_spec _ _ _

/-- Witness for C2 on a concrete clean run. -/
theorem c2_exit_status_iff_witness :
    ((0 : Nat) = 0 ↔
      (false = false ∧ ([] : Dict) = [] ∧ ([] : List (List Char)) = [])) ∧
    ((0 : Nat) = 0 ∨ (0 : Nat) = 1) :=
  c2_exit_status_iff 0 [str ("")] [str ("")] [] [] false 0 (by decide)

/-- Claim C1: when the header declares the export `GEOSFunc` (not on the
deny-list) and no line of the binding source declares a `fn` named
`GEOSFunc`, the missing-bindings table of the run is exactly the
`GEOSFunc` entry, no mismatch is recorded, and the exit status is 1. -/
theorem c1_missing_binding (cfuel : Nat) (rust : List (List Char))
    (h : ∀ line ∈ rust, fnNameOf line ≠ some (str ("GEOSFunc"))) :
    resMissing (runOut cfuel
        [str ("extern double GEOS_DLL GEOSFunc(const double * arg);")] rust) =
      some [(str ("GEOSFunc"), ([str ("const double *")], str ("double")))] ∧
    resErr (runOut cfuel
        [str ("extern double GEOS_DLL GEOSFunc(const double * arg);")] rust) =
      some false ∧
    resExit (runOut cfuel
        [str ("extern double GEOS_DLL GEOSFunc(const double * arg);")] rust) =
      some 1 := by
  have hcf : get_c_functions
      [str ("extern double GEOS_DLL GEOSFunc(const double * arg);")] =
      some [(str ("GEOSFunc"), ([str ("const double *")], str ("double")))] := by
    decide
  obtain ⟨fns2, hrun⟩ := grf_go_skip cfuel rust.length rust
      [(str ("GEOSFunc"), ([str ("const double *")], str ("double")))] [] false
      (fun line hl nm hnm => by
        rw [dlookup_cons,
          if_neg (fun he => h line hl (by rw [← he] at hnm; exact hnm))]
        rfl)
      (Nat.le_refl _)
  unfold runOut get_rust_functions
  simp only [hcf, hrun, pyBind, resMissing, resErr, resExit]
  simp [exitCode]

/-- Witness for C1 with an empty binding source. -/
theorem c1_missing_binding_witness :
    resMissing (runOut 0
        [str ("extern double GEOS_DLL GEOSFunc(const double * arg);")]
        [str ("")]) =
      some [(str ("GEOSFunc"), ([str ("const double *")], str ("double")))] ∧
    resErr (runOut 0
        [str ("extern double GEOS_DLL GEOSFunc(const double * arg);")]
        [str ("")]) = some false ∧
    resExit (runOut 0
        [str ("extern double GEOS_DLL GEOSFunc(const double * arg);")]
        [str ("")]) = some 1 :=
  c1_missing_binding 0 [str ("")] (by decide)

/-- Claim C8: a deny-listed name is excluded from the C-signature table at
extraction time, and therefore can never be in the residual
missing-bindings table of a completed run, whatever the binding source. -/
theorem c8_deny_list_never_missing (cfuel : Nat)
    (header rust : List (List Char)) (nm : List Char) (hnm : nm ∈ TO_IGNORE) :
    (∀ d, get_c_functions header = some d → dlookup d nm = none) ∧
    (∀ res, runOut cfuel header rust = .ok res → dlookup res.1 nm = none) := by
  constructor
  · intro d hd
    exact gcf_go_ignored header.length header [] d nm hnm rfl hd
  · intro res hres
    unfold runOut at hres
    cases hg : get_c_functions header with
    | none => simp only [hg] at hres; cases hres
    | some cf0 =>
      simp only [hg] at hres
      unfold get_rust_functions at hres
      cases hr : grf_go cfuel rust.length rust cf0 [] false with
      | exn => simp only [hr, pyBind] at hres; cases hres
      | hang => simp only [hr, pyBind] at hres; cases hres
      | ok r =>
        simp only [hr, pyBind] at hres
        have h1 : dlookup cf0 nm = none :=
          gcf_go_ignored header.length header [] cf0 nm hnm rfl hg
        have h2 : dlookup r.1 nm = none :=
          grf_go_cf_none cfuel rust.length rust cf0 [] false r hr nm h1
        cases hres
        exact h2

/-- Witness for C8 at the deny-listed name `GEOSGeomFromWKT`. -/
theorem c8_deny_list_never_missing_witness :
    dlookup ([] : Dict) (str ("GEOSGeomFromWKT")) = none :=
  (c8_deny_list_never_missing 0 [str ("")] [str ("")]
    (str ("GEOSGeomFromWKT")) (by decide)).1 [] (by decide)

/-- Claim C10: at any step of the binding scan, (1) the extra-name set only
grows; (2) a nonempty scanned `fn` name that is not a key of the table at
that moment is added to the extra set of the completed scan; (3) a scanned
name that is a key of the table is deleted by the step — whether or not the
comparison reports a mismatch — so it is absent from the residual
(missing) table; (4) a nonempty extra set alone forces exit status 1. -/
theorem c10_extra_names_and_deletion (cfuel f : Nat) (line : List Char)
    (rest : List (List Char)) (cf : Dict) (fns : List (List Char))
    (err : Bool) (res : Dict × List (List Char) × Bool)
    (h : grf_go cfuel (f + 1) (line :: rest) cf fns err = .ok res) :
    (∀ nm ∈ fns, nm ∈ res.2.1) ∧
    (∀ nm, fnNameOf line = some nm → nm ≠ [] → dlookup cf nm = none →
      nm ∈ res.2.1) ∧
    (∀ nm, fnNameOf line = some nm → (dlookup cf nm).isSome →
      dlookup res.1 nm = none) ∧
    (res.2.1 ≠ [] → exitCode res.2.2 res.1 res.2.1 = 1) := by
  refine ⟨grf_go_fns_mono _ _ _ _ _ _ _ h, ?_, ?_, ?_⟩
  · intro nm hnm hne hnone
    cases hsp : (pySplitS (str (" fn ")) line).get? 1 with
    | none => unfold fnNameOf at hnm; rw [hsp] at hnm; cases hnm
    | some after =>
      unfold fnNameOf at hnm
      rw [hsp] at hnm
      simp only [Option.map_some'] at hnm
      cases hnm
      simp only [grf_go, hsp, hnone] at h
      rw [if_neg hne] at h
      exact grf_go_fns_mono _ _ _ _ _ _ _ h _ (mem_setAdd_self _ _)
  · intro nm hnm hsome
    cases hsp : (pySplitS (str (" fn ")) line).get? 1 with
    | none => unfold fnNameOf at hnm; rw [hsp] at hnm; cases hnm
    | some after =>
      unfold fnNameOf at hnm
      rw [hsp] at hnm
      simp only [Option.map_some'] at hnm
      cases hnm
      cases hlu : dlookup cf (pyStrip ((List.splitOn '(' after).headD [])) with
      | none => rw [hlu] at hsome; cases hsome
      | some csig =>
        simp only [grf_go, hsp, hlu] at h
        have hrm : dlookup
            (dremove cf (pyStrip ((List.splitOn '(' after).headD [])))
            (pyStrip ((List.splitOn '(' after).headD [])) = none :=
          dlookup_dremove_self _ _
        split at h
        · simp at h
        · split at h
          · split at h
            · simp at h
            · split at h <;>
                first
                | exact grf_go_cf_none _ _ _ _ _ _ _ h _ hrm
                | simp at h
          · split at h <;>
              first
              | exact grf_go_cf_none _ _ _ _ _ _ _ h _ hrm
              | simp at h
  · intro hne
    unfold exitCode
    rw [if_pos]
    simp [List.length_pos.mpr hne]

/-- Witness for C10 at a one-line binding source declaring an unknown
`fn foo`. -/
theorem c10_extra_names_and_deletion_witness :
    str ("foo") ∈ [str ("foo")] ∧
    exitCode false ([] : Dict) [str ("foo")] = 1 := by
  have h := c10_extra_names_and_deletion 0 0 (str ("pub fn foo();")) [] [] []
    false ([], [str ("foo")], false) (by decide)
  exact ⟨h.2.1 (str ("foo")) (by decide) (by decide) (by decide),
    h.2.2.2 (by decide)⟩

/-! ## String-lemma toolkit for the universal claims -/

/-- `dropWhile` is the identity when the head fails the predicate. -/
theorem dropWhile_eq_self_of_head (p : Char → Bool) (s : List Char)
    (h : ∀ c, s.head? = some c → p c = false) : s.dropWhile p = s := by
  cases s with
  | nil => rfl
  | cons a l =>
    rw [List.dropWhile_cons, if_neg]
    simp [h a rfl]

/-- `pyStrip` is the identity on strings whose first and last characters
are not whitespace. -/
theorem pyStrip_eq_self (s : List Char)
    (h1 : ∀ c, s.head? = some c → pyIsSpace c = false)
    (h2 : ∀ c, s.getLast? = some c → pyIsSpace c = false) :
    pyStrip s = s := by
  unfold pyStrip
  rw [dropWhile_eq_self_of_head _ _ h1,
    dropWhile_eq_self_of_head _ _
      (fun c hc => h2 c (by rwa [← List.head?_reverse])),
    List.reverse_reverse]

/-- Splitting on a character that does not occur returns the whole string. -/
theorem splitOn_eq_single (c : Char) (s : List Char) (h : c ∉ s) :
    List.splitOn c s = [s] := by
  unfold List.splitOn
  exact List.splitOnP_eq_single _ _
    (fun x hx hc => h ((beq_iff_eq.mp hc) ▸ hx))

/-- Joining a single string is the string itself. -/
theorem pyJoin_singleton (sep x : List Char) : pyJoin sep [x] = x := by
  simp [pyJoin, List.intercalate]

/-- `pyStrip` only ever removes characters. -/
theorem pyStrip_sublist (s : List Char) : (pyStrip s).Sublist s := by
  unfold pyStrip
  have h1 : ((s.dropWhile pyIsSpace).reverse.dropWhile pyIsSpace).Sublist
      (s.dropWhile pyIsSpace).reverse := List.dropWhile_sublist _
  have h2 : (s.dropWhile pyIsSpace).Sublist s := List.dropWhile_sublist _
  have := (List.reverse_sublist.mpr h1).trans
    (by simpa using h2.reverse.reverse)
  simpa using this

/-- Splitting `"double " ++ name ++ "[]"` on spaces, for a space-free
declarator `name`. -/
theorem c4_split_space (name : List Char) (h2 : ' ' ∉ name) :
    List.splitOn ' ' (str ("double ") ++ name ++ str ("[]")) =
      [str ("double"), name ++ str ("[]")] := by
  have hform : str ("double ") ++ name ++ str ("[]") =
      str ("double") ++ ' ' :: (name ++ str ("[]")) := rfl
  rw [hform]
  unfold List.splitOn
  rw [List.splitOnP_first _ _ (by decide) ' ' (by decide)]
  rw [List.splitOnP_eq_single _ _ (fun x hx hc => ?_)]
  rcases List.mem_append.mp hx with hx | hx
  · exact h2 ((beq_iff_eq.mp hc) ▸ hx)
  · revert hx
    rw [beq_iff_eq.mp hc]
    decide

/-- The extraction half of claim C4: the extractor turns the named array
parameter `double name[]` into the type string `double *const`. -/
theorem c4_extract (name : List Char) (h1 : name ≠ []) (h2 : ' ' ∉ name)
    (h3 : ',' ∉ name) (h4 : pyStrip name = name)
    (h5 : List.isSuffixOf (str ("[]")) name = false)
    (h6 : name.head? ≠ some '*') :
    get_c_args (str ("double ") ++ name ++ str ("[]")) [] =
      some [str ("double *const")] := by
  have htext0 : (str ("double ") ++ name ++ str ("[]")).head? = some 'd' := rfl
  have htextlast : (str ("double ") ++ name ++ str ("[]")).getLast? =
      some ']' := by
    rw [List.getLast?_append_of_ne_nil _ (by decide)]
    rfl
  have hstrip : pyStrip (str ("double ") ++ name ++ str ("[]")) =
      str ("double ") ++ name ++ str ("[]") :=
    pyStrip_eq_self _
      (fun c hc => by rw [htext0] at hc; cases hc; rfl)
      (fun c hc => by rw [htextlast] at hc; cases hc; rfl)
  have hsplit1 : List.splitOn ',' (str ("double ") ++ name ++ str ("[]")) =
      [str ("double ") ++ name ++ str ("[]")] := by
    refine splitOn_eq_single _ _ (fun hmem => ?_)
    rcases List.mem_append.mp hmem with hx | hx
    · rcases List.mem_append.mp hx with hx | hx
      · exact absurd hx (by decide)
      · exact h3 hx
    · exact absurd hx (by decide)
  have hne : str ("double ") ++ name ++ str ("[]") ≠ [] := by
    intro he
    rw [he] at htext0
    cases htext0
  have hlen : (name ++ str ("[]")).length = name.length + 1 + 1 := by
    rw [List.length_append]
    rfl
  have harr : stripArrGo (name ++ str ("[]")).length (str ("double"))
      (name ++ str ("[]")) = (str ("double *const"), name) := by
    rw [hlen]
    simp only [stripArrGo]
    rw [if_pos (List.isSuffixOf_iff_suffix.mpr (List.suffix_append name _))]
    have htake : (name ++ str ("[]")).length - 2 = name.length := by
      rw [hlen]
      omega
    rw [htake, List.take_left, h4]
    rw [show str ("double") ++ str (" *const") = str ("double *const") from
      rfl]
    rw [if_neg (by simp [h5])]
  have hstars : name.takeWhile (fun c => c = '*') = [] := by
    cases name with
    | nil => rfl
    | cons c l =>
      rw [List.takeWhile_cons, if_neg]
      simp only [decide_eq_true_eq]
      intro he
      exact h6 (by rw [he]; rfl)
  have hpart : get_c_args_part [] (str ("double ") ++ name ++ str ("[]")) =
      some [str ("double *const")] := by
    unfold get_c_args_part
    simp only [hstrip, c4_split_space name h2]
    rw [if_neg hne]
    rw [show ([str ("double"), name ++ str ("[]")].getLastD ([] : List Char))
      = name ++ str ("[]") from rfl]
    rw [show pyJoin (str (" "))
        ([str ("double"), name ++ str ("[]")].dropLast) = str ("double") from
      rfl]
    simp only [harr]
    rw [if_neg h1]
    rw [hstars]
    rw [show List.replicate ([] : List Char).length '*' = [] from rfl,
      List.append_nil]
    rw [show pyStrip (pyReplace (str (" * const")) (str (" *const"))
      (str ("double *const"))) = str ("double *const") from by decide]
    rfl
  unfold get_c_args
  rw [hsplit1]
  rw [show ([str ("double ") ++ name ++ str ("[]")].foldlM get_c_args_part
      ([] : List (List Char))) = get_c_args_part [] (str ("double ") ++ name
      ++ str ("[]")) >>= fun b => ([] : List (List Char)).foldlM
      get_c_args_part b from rfl]
  rw [hpart]
  rfl

/-- Claim C4 (amended): for every declarator name — nonempty, free of
spaces, commas and a leading `*`, strip-invariant, and not itself ending
in `[]` — the extractor rewrites the array parameter `double name[]` into
the type string `double *const`, and the translator peels that trailing
`*const` marker into a leading `*const` pointer, yielding the canonical
read-only pointer-to-double `*const c_double`: the same canonical result
as translating `double *const` itself. -/
theorem c4_array_decay_amended (fuel : Nat) (name : List Char)
    (h1 : name ≠ []) (h2 : ' ' ∉ name) (h3 : ',' ∉ name)
    (h4 : pyStrip name = name)
    (h5 : List.isSuffixOf (str ("[]")) name = false)
    (h6 : name.head? ≠ some '*') :
    get_c_args (str ("double ") ++ name ++ str ("[]")) [] =
      some [str ("double *const")] ∧
    convert_c_to_rust (fuel + 1) (str ("double *const")) =
      .ok (pyJoin (str (" ")) [str ("*const"), str ("c_double")]) := by
  refine ⟨c4_extract name h1 h2 h3 h4 h5 h6, ?_⟩
  refine convert_ok (m := [str ("double"), str ("*const")])
    (l := [str ("*const"), str ("double")]) (by decide) ?_ (by decide)
  exact constPeelLoop_exit fuel [str ("*const"), str ("double")]
    (str ("double")) (by decide) (by decide)

/-- Witness for the amended C4 at the declarator name `x` and fuel 1. -/
theorem c4_array_decay_amended_witness :
    get_c_args (str ("double ") ++ str ("x") ++ str ("[]")) [] =
      some [str ("double *const")] ∧
    convert_c_to_rust 1 (str ("double *const")) =
      .ok (pyJoin (str (" ")) [str ("*const"), str ("c_double")]) :=
  c4_array_decay_amended 0 (str ("x")) (by decide) (by decide) (by decide)
    (by decide) (by decide) (by decide)

/-- A list fixed by `dropWhile` has a head failing the predicate. -/
theorem head_false_of_dropWhile_eq (p : Char → Bool) (s : List Char)
    (h : s.dropWhile p = s) : ∀ c, s.head? = some c → p c = false := by
  intro c hc
  cases s with
  | nil => cases hc
  | cons a rest =>
    cases hc
    cases hp : p c with
    | false => rfl
    | true =>
      rw [List.dropWhile_cons, if_pos (by simp [hp])] at h
      have h1 := congrArg List.length h
      have h2 := (List.dropWhile_sublist (p := p) (l := rest)).length_le
      simp only [List.length_cons] at h1
      omega

/-- `pyStrip` written through `rdropWhile`. -/
theorem pyStrip_eq_rdropWhile (s : List Char) :
    pyStrip s = List.rdropWhile pyIsSpace (s.dropWhile pyIsSpace) := rfl

/-- The output of `pyStrip` is fixed by a further `dropWhile`. -/
theorem dropWhile_pyStrip (s : List Char) :
    (pyStrip s).dropWhile pyIsSpace = pyStrip s := by
  rw [pyStrip_eq_rdropWhile]
  cases hX : List.rdropWhile pyIsSpace (s.dropWhile pyIsSpace) with
  | nil => rfl
  | cons a X' =>
    rw [List.dropWhile_cons, if_neg]
    obtain ⟨rest, hrest⟩ :=
      List.rdropWhile_prefix (p := pyIsSpace) (l := s.dropWhile pyIsSpace)
    rw [hX] at hrest
    have hhead : (s.dropWhile pyIsSpace).head? = some a := by
      rw [← hrest]
      rfl
    have := head_false_of_dropWhile_eq pyIsSpace (s.dropWhile pyIsSpace)
      (List.dropWhile_idempotent _ _) a hhead
    simp [this]

/-- `pyStrip` is idempotent. -/
theorem pyStrip_idem (s : List Char) : pyStrip (pyStrip s) = pyStrip s := by
  rw [pyStrip_eq_rdropWhile (pyStrip s), dropWhile_pyStrip,
    pyStrip_eq_rdropWhile s, List.rdropWhile_idempotent]

/-- The output of `pyStrip` starts and ends with non-whitespace. -/
theorem pyStrip_head_last (s : List Char) :
    (∀ c, (pyStrip s).head? = some c → pyIsSpace c = false) ∧
    (∀ c, (pyStrip s).getLast? = some c → pyIsSpace c = false) := by
  constructor
  · exact head_false_of_dropWhile_eq _ _ (dropWhile_pyStrip s)
  · intro c hc
    have hne : pyStrip s ≠ [] := by
      intro he
      rw [he] at hc
      cases hc
    rw [pyStrip_eq_rdropWhile] at hne hc
    have := List.rdropWhile_last_not (p := pyIsSpace)
      (l := s.dropWhile pyIsSpace) hne
    rw [List.getLast?_eq_getLast _ hne] at hc
    cases hc
    simpa using this

/-- A token with no `*` cannot end in the `*const` marker. -/
theorem no_star_not_starconst_suffix (last : List Char) (hs : '*' ∉ last) :
    List.isSuffixOf (str ("*const")) last = false := by
  cases hb : List.isSuffixOf (str ("*const")) last with
  | false => rfl
  | true =>
    exact absurd
      ((List.isSuffixOf_iff_suffix.mp hb).sublist.subset (by decide)) hs

/-- The single-`*` peeling loop is the identity when the last token has no
star. -/
theorem starPeelGo_no_star (c : Bool) (fuel : Nat) (l : List (List Char))
    (last : List Char) (hl : l.getLast? = some last) (hs : '*' ∉ last) :
    starPeelGo c fuel l = some l := by
  have hne : ¬ (last.getLast? = some '*') := fun he =>
    hs (List.mem_of_mem_getLast? he)
  cases fuel <;> simp [starPeelGo, hl, hne]

/-- The substitution loop on a list with no `unsigned` token maps
`inline_conv` over it. -/
theorem substLoop_map (l : List (List Char))
    (h : ∀ t ∈ l, t ≠ str ("unsigned")) :
    substLoop l = some (l.map inline_conv) := by
  induction l with
  | nil => rfl
  | cons t rest ih =>
    unfold substLoop
    rw [if_neg (by simpa using h t (List.mem_cons_self _ _))]
    rw [ih (fun u hu => h u (List.mem_cons_of_mem _ hu))]
    rfl

/-- Every piece produced by `splitOnP` consists of characters failing the
predicate. -/
theorem splitOnP_pieces (p : Char → Bool) (s : List Char) :
    ∀ t ∈ List.splitOnP p s, ∀ x ∈ t, p x = false := by
  induction s with
  | nil =>
    intro t ht x hx
    simp only [List.splitOnP_nil, List.mem_singleton] at ht
    subst ht
    cases hx
  | cons a l ih =>
    intro t ht x hx
    rw [List.splitOnP_cons] at ht
    by_cases hp : p a
    · rw [if_pos hp] at ht
      rcases List.mem_cons.mp ht with h1 | h1
      · subst h1; cases hx
      · exact ih t h1 x hx
    · rw [if_neg hp] at ht
      cases hsp : List.splitOnP p l with
      | nil => exact absurd hsp (List.splitOnP_ne_nil _ _)
      | cons h0 rest =>
        rw [hsp, List.modifyHead_cons] at ht
        rcases List.mem_cons.mp ht with h1 | h1
        · subst h1
          rcases List.mem_cons.mp hx with h2 | h2
          · subst h2; simpa using hp
          · exact ih h0 (by rw [hsp]; exact List.mem_cons_self _ _) x h2
        · exact ih t (by rw [hsp]; exact List.mem_cons_of_mem _ h1) x hx

/-- Tokens of a space-split never contain a space. -/
theorem space_not_mem_splitOn (s t : List Char)
    (h : t ∈ List.splitOn ' ' s) : ' ' ∉ t := by
  intro hx
  have := splitOnP_pieces (· == ' ') s t (by simpa [List.splitOn] using h)
    ' ' hx
  simp at this

/-- Unfolding of `pyJoin` on two or more pieces. -/
theorem pyJoin_cons_cons (sep x y : List Char) (L : List (List Char)) :
    pyJoin sep (x :: y :: L) = x ++ (sep ++ pyJoin sep (y :: L)) := by
  simp [pyJoin, List.intercalate]

/-- A join headed by a nonempty piece is nonempty. -/
theorem pyJoin_ne_nil (sep y : List Char) (L : List (List Char))
    (hy : y ≠ []) : pyJoin sep (y :: L) ≠ [] := by
  cases L with
  | nil => rw [pyJoin_singleton]; exact hy
  | cons z L' =>
    rw [pyJoin_cons_cons]
    simp [hy]

/-- The head of a join is the head of its first piece. -/
theorem pyJoin_head? (sep x : List Char) (L : List (List Char))
    (hx : x ≠ []) : (pyJoin sep (x :: L)).head? = x.head? := by
  cases L with
  | nil => rw [pyJoin_singleton]
  | cons y L' =>
    rw [pyJoin_cons_cons]
    exact List.head?_append_of_ne_nil x hx

/-- The last character of a space-join of nonempty pieces is the last
character of its last piece. -/
theorem pyJoin_getLast? (L : List (List Char)) (u : List Char)
    (hu : L.getLast? = some u) (hall : ∀ v ∈ L, v ≠ []) :
    (pyJoin (str (" ")) L).getLast? = u.getLast? := by
  induction L with
  | nil => cases hu
  | cons x L' ih =>
    cases L' with
    | nil =>
      rw [pyJoin_singleton]
      simp only [List.getLast?_singleton, Option.some.injEq] at hu
      rw [hu]
    | cons y L'' =>
      rw [pyJoin_cons_cons]
      rw [List.getLast?_append_of_ne_nil _
        (List.append_ne_nil_of_right_ne_nil _
          (pyJoin_ne_nil _ y L'' (hall y (by simp))))]
      rw [List.getLast?_append_of_ne_nil _
        (pyJoin_ne_nil _ y L'' (hall y (by simp)))]
      rw [List.getLast?_cons_cons] at hu
      exact ih hu (fun v hv => hall v (List.mem_cons_of_mem _ hv))

/-- A space-join of nonempty strip-invariant pieces is strip-invariant. -/
theorem pyStrip_pyJoin (L : List (List Char))
    (h : ∀ u ∈ L, u ≠ [] ∧ pyStrip u = u) :
    pyStrip (pyJoin (str (" ")) L) = pyJoin (str (" ")) L := by
  cases L with
  | nil => decide
  | cons x L' =>
    have hx := h x (List.mem_cons_self _ _)
    apply pyStrip_eq_self
    · intro c hc
      rw [pyJoin_head? _ x L' hx.1] at hc
      exact (pyStrip_head_last x).1 c (by rw [hx.2]; exact hc)
    · intro c hc
      have hne : x :: L' ≠ [] := by simp
      obtain ⟨ul, hul⟩ : ∃ ul, (x :: L').getLast? = some ul :=
        ⟨_, List.getLast?_eq_getLast _ hne⟩
      have hulmem : ul ∈ x :: L' := List.mem_of_mem_getLast? hul
      rw [pyJoin_getLast? _ ul hul (fun v hv => (h v hv).1)] at hc
      exact (pyStrip_head_last ul).2 c
        (by rw [(h ul hulmem).2]; exact hc)

/-- The substitution table either fixes a token or sends it to one of five
concrete target primitives. -/
theorem inline_conv_cases (t : List Char) :
    inline_conv t = t ∨ inline_conv t ∈ [str ("c_int"), str ("c_char"),
      str ("c_void"), str ("c_double"), str ("c_float")] := by
  unfold inline_conv
  split_ifs <;> first | exact Or.inl rfl | exact Or.inr (by decide)

/-- The stripped image of a well-behaved token under the substitution
table is again well behaved and is a fixed point of the table. -/
theorem good_token_image (t : List Char) (h1 : '*' ∉ t)
    (h2 : t ≠ str ("unsigned")) (h3 : pyStrip t = t) (h4 : ' ' ∉ t)
    (h5 : t ≠ str ("const")) :
    ' ' ∉ pyStrip (inline_conv t) ∧ '*' ∉ pyStrip (inline_conv t) ∧
    pyStrip (inline_conv t) ≠ str ("unsigned") ∧
    pyStrip (inline_conv t) ≠ str ("const") ∧
    pyStrip (pyStrip (inline_conv t)) = pyStrip (inline_conv t) ∧
    inline_conv (pyStrip (inline_conv t)) = pyStrip (inline_conv t) ∧
    (t ≠ [] → pyStrip (inline_conv t) ≠ []) := by
  rcases inline_conv_cases t with hc | hc
  · rw [hc, h3]
    exact ⟨h4, h1, h2, h5, h3, hc, fun h => h⟩
  · simp only [List.mem_cons, List.not_mem_nil, or_false] at hc
    rcases hc with hc | hc | hc | hc | hc <;> rw [hc] <;>
      exact ⟨by decide, by decide, by decide, by decide, by decide,
        by decide, fun h => by decide⟩

/-- A space-join of tokens that are nonempty, space- and star-free, not
`unsigned` or `const`, strip-invariant and fixed by the substitution table
is a fixed point of the translator, at any fuel. -/
theorem convert_tokens_fixed (fuel : Nat) (L : List (List Char))
    (hne : L ≠ [])
    (hL : ∀ u ∈ L, u ≠ [] ∧ ' ' ∉ u ∧ '*' ∉ u ∧ u ≠ str ("unsigned") ∧
      u ≠ str ("const") ∧ pyStrip u = u ∧ inline_conv u = u) :
    convert_c_to_rust fuel (pyJoin (str (" ")) L) =
      .ok (pyJoin (str (" ")) L) := by
  have hstrip : pyStrip (pyJoin (str (" ")) L) = pyJoin (str (" ")) L :=
    pyStrip_pyJoin L (fun u hu => ⟨(hL u hu).1, (hL u hu).2.2.2.2.2.1⟩)
  have hsplit : List.splitOn ' ' (pyJoin (str (" ")) L) = L := by
    rw [show pyJoin (str (" ")) L = List.intercalate [' '] L from rfl]
    exact List.splitOn_intercalate L ' ' (fun u hu => (hL u hu).2.1) hne
  have hfilterc : L.filter (fun t => t ≠ str ("const")) = L :=
    List.filter_eq_self.mpr (fun u hu => by simp [(hL u hu).2.2.2.2.1])
  obtain ⟨last, hlast⟩ : ∃ l2, L.getLast? = some l2 :=
    ⟨_, List.getLast?_eq_getLast _ hne⟩
  have hlastmem := List.mem_of_mem_getLast? hlast
  have hpre : convertPre (pyJoin (str (" ")) L) = some L := by
    simp only [convertPre]
    rw [hstrip, hsplit, hfilterc]
    exact starPeelGo_no_star _ _ L last hlast (hL last hlastmem).2.2.1
  have hloop : constPeelLoop fuel L = .ok L :=
    constPeelLoop_exit fuel L last hlast
      (no_star_not_starconst_suffix last (hL last hlastmem).2.2.1)
  have hsubst := substLoop_map L (fun t ht => (hL t ht).2.2.2.1)
  have hmapconv : L.map inline_conv = L := by
    rw [List.map_congr_left (fun u hu => (hL u hu).2.2.2.2.2.2)]
    exact List.map_id L
  have hmapstrip : L.map pyStrip = L := by
    rw [List.map_congr_left (fun u hu => (hL u hu).2.2.2.2.2.1)]
    exact List.map_id L
  have hfilter2 : L.filter (fun t => t ≠ []) = L :=
    List.filter_eq_self.mpr (fun u hu => by simp [(hL u hu).1])
  have hpost : convertPost L = some (pyJoin (str (" ")) L) := by
    unfold convertPost
    rw [hsubst]
    simp only [Option.map_some']
    rw [hmapconv, hmapstrip, hfilter2]
  exact convert_ok hpre hloop hpost

/-- Claim C7 (amended): translation is idempotent — and in particular
succeeds — on every C type string whose whitespace-separated tokens (after
stripping the string) contain no `*` character, are not the token
`unsigned`, are themselves strip-invariant, and include at least one
nonempty token other than `const`; the translator's output re-translates
to itself at any fuel, since no pointer peeling can occur. -/
theorem c7_idempotent_amended (fuel fuel2 : Nat) (x : List Char)
    (hH : ∀ t ∈ List.splitOn ' ' (pyStrip x),
      '*' ∉ t ∧ t ≠ str ("unsigned") ∧ pyStrip t = t)
    (hEx : ∃ t ∈ List.splitOn ' ' (pyStrip x), t ≠ str ("const") ∧ t ≠ []) :
    ∃ r, convert_c_to_rust fuel x = .ok r ∧
      convert_c_to_rust fuel2 r = .ok r := by
  obtain ⟨t0, ht0mem, ht0c, ht0ne⟩ := hEx
  have ht0complete : t0 ∈ (List.splitOn ' ' (pyStrip x)).filter
      (fun t => t ≠ str ("const")) :=
    List.mem_filter.mpr ⟨ht0mem, by simp [ht0c]⟩
  have hcompne : (List.splitOn ' ' (pyStrip x)).filter
      (fun t => t ≠ str ("const")) ≠ [] := List.ne_nil_of_mem ht0complete
  have hsubmem : ∀ u ∈ (List.splitOn ' ' (pyStrip x)).filter
      (fun t => t ≠ str ("const")), u ∈ List.splitOn ' ' (pyStrip x) :=
    fun u hu => (List.mem_filter.mp hu).1
  obtain ⟨last, hlast⟩ : ∃ l2, ((List.splitOn ' ' (pyStrip x)).filter
      (fun t => t ≠ str ("const"))).getLast? = some l2 :=
    ⟨_, List.getLast?_eq_getLast _ hcompne⟩
  have hlastmem := List.mem_of_mem_getLast? hlast
  have hpre : convertPre x = some ((List.splitOn ' ' (pyStrip x)).filter
      (fun t => t ≠ str ("const"))) :=
    starPeelGo_no_star _ _ _ last hlast
      (hH last (hsubmem last hlastmem)).1
  have hloop : constPeelLoop fuel ((List.splitOn ' ' (pyStrip x)).filter
      (fun t => t ≠ str ("const"))) = .ok ((List.splitOn ' '
      (pyStrip x)).filter (fun t => t ≠ str ("const"))) :=
    constPeelLoop_exit fuel _ last hlast
      (no_star_not_starconst_suffix last
        (hH last (hsubmem last hlastmem)).1)
  have hsubst := substLoop_map ((List.splitOn ' ' (pyStrip x)).filter
      (fun t => t ≠ str ("const")))
    (fun t ht => (hH t (hsubmem t ht)).2.1)
  have hpost : convertPost ((List.splitOn ' ' (pyStrip x)).filter
      (fun t => t ≠ str ("const"))) = some (pyJoin (str (" "))
      (((((List.splitOn ' ' (pyStrip x)).filter
        (fun t => t ≠ str ("const"))).map inline_conv).map pyStrip).filter
        (fun t => t ≠ []))) := by
    unfold convertPost
    rw [hsubst]
    rfl
  refine ⟨_, convert_ok hpre hloop hpost, ?_⟩
  have hLgood : ∀ u ∈ (((((List.splitOn ' ' (pyStrip x)).filter
      (fun t => t ≠ str ("const"))).map inline_conv).map pyStrip).filter
      (fun t => t ≠ [])),
      u ≠ [] ∧ ' ' ∉ u ∧ '*' ∉ u ∧ u ≠ str ("unsigned") ∧
      u ≠ str ("const") ∧ pyStrip u = u ∧ inline_conv u = u := by
    intro u hu
    rcases List.mem_filter.mp hu with ⟨hu1, hu2⟩
    rcases List.mem_map.mp hu1 with ⟨v, hv, hveq⟩
    rcases List.mem_map.mp hv with ⟨t, ht, hteq⟩
    subst hveq
    subst hteq
    have htoksmem := hsubmem t ht
    have hG := good_token_image t (hH t htoksmem).1 (hH t htoksmem).2.1
      (hH t htoksmem).2.2 (space_not_mem_splitOn (pyStrip x) t htoksmem)
      (by simpa using (List.mem_filter.mp ht).2)
    exact ⟨by simpa using hu2, hG.1, hG.2.1, hG.2.2.1, hG.2.2.2.1,
      hG.2.2.2.2.1, hG.2.2.2.2.2.1⟩
  have hLne : (((((List.splitOn ' ' (pyStrip x)).filter
      (fun t => t ≠ str ("const"))).map inline_conv).map pyStrip).filter
      (fun t => t ≠ [])) ≠ [] := by
    apply List.ne_nil_of_mem (a := pyStrip (inline_conv t0))
    apply List.mem_filter.mpr
    constructor
    · exact List.mem_map_of_mem _ (List.mem_map_of_mem _ ht0complete)
    · have hG := good_token_image t0 (hH t0 ht0mem).1 (hH t0 ht0mem).2.1
        (hH t0 ht0mem).2.2 (space_not_mem_splitOn (pyStrip x) t0 ht0mem)
        ht0c
      simpa using hG.2.2.2.2.2.2 ht0ne
  exact convert_tokens_fixed fuel2 _ hLne hLgood

/-- Witness for the amended C7 at the type string `double`. -/
theorem c7_idempotent_amended_witness :
    ∃ r, convert_c_to_rust 0 (str ("double")) = .ok r ∧
      convert_c_to_rust 0 r = .ok r :=
  c7_idempotent_amended 0 0 (str ("double")) (by decide) (by decide)
